import Mathlib

/-!
Verification of `risk_manager.py` (bfrm): a Binance USDT-M futures position-risk
guard.  The script polls all positions; whenever `abs(positionAmt * entryPrice)`
exceeds `MAX_NOTIONAL` it submits a reduce-only market order trimming the
excess, rounded down to the symbol's LOT_SIZE step.

Python `decimal.Decimal` values are finite decimals `m * 10^e`; the script runs
with `getcontext().prec = 28` and the default rounding ROUND_HALF_EVEN.  We
embed a `Decimal` as its coefficient/exponent pair (`Dec`), implement the
context arithmetic the script uses (`*`, `-`, `/`, `abs`,
`quantize(step, rounding=ROUND_DOWN)`, value comparisons) on plain integers,
and give each `Dec` its rational value `Dec.val` for specification statements.

Unmodelled corner cases (documented, not exercised by any theorem below):
`Decimal` strings such as `Infinity` and `NaN` are treated as conversion
failures here (on such input the real loop also aborts the cycle, via a later
`InvalidOperation` raised by the arithmetic), and the `InvalidOperation` that
`quantize` raises when the rounded coefficient would exceed 28 digits (this
needs an excess at least `10^28` times the step size).
-/

/-- A Python `Decimal` value `m * 10 ^ e`: signed coefficient and exponent,
exactly the representation `decimal.Decimal` stores. -/
structure Dec where
  m : ℤ
  e : ℤ
  deriving DecidableEq

/-- Integer `10 ^ k`, by plain structural recursion so that it evaluates
inside `decide`. -/
def pow10 : ℕ → ℤ
  | 0 => 1
  | k + 1 => 10 * pow10 k

/-- Decimal digit count, fuel-driven so that it is structurally recursive;
`fuel` many steps always suffice for `n ≤ fuel`. -/
def dLen (fuel n : ℕ) : ℕ :=
  match fuel with
  | 0 => 1
  | f + 1 => if n < 10 then 1 else dLen f (n / 10) + 1

/-- Number of decimal digits of `n` (with `nDigits 0 = 1`), Python's
`len(str(coefficient))` used by `decimal` to locate the rounding position. -/
def nDigits (n : ℕ) : ℕ := dLen n n

/-- Round the exact quotient `n / d` (`d ≠ 0` intended) to the nearest integer,
ties to even: `decimal`'s default ROUND_HALF_EVEN. -/
def rndHalfEvenDiv (n d : ℤ) : ℤ :=
  let d2 := if d < 0 then -d else d
  let n2 := if d < 0 then -n else n
  let q := Int.fdiv n2 d2
  let r := n2 - q * d2
  if 2 * r < d2 then q
  else if d2 < 2 * r then q + 1
  else if q % 2 = 0 then q else q + 1

/-- The active precision: `getcontext().prec = 28` in the script. -/
def PREC : ℕ := 28

/-- Round a raw decimal to at most `p` significant digits, half-even: the
context rounding `decimal` applies to every arithmetic result.  Value-preserving
whenever the coefficient already fits in `p` digits.  When rounding up carries
into an extra digit (`999...95 -> 10^p`) the coefficient is renormalized to
`10^(p-1)` with the exponent bumped, as `decimal` does (same value). -/
def roundSig (p : ℕ) (a : Dec) : Dec :=
  let L := nDigits a.m.natAbs
  if L ≤ p then a
  else
    let q := rndHalfEvenDiv a.m (pow10 (L - p))
    let e := a.e + ((L - p : ℕ) : ℤ)
    if nDigits q.natAbs ≤ p then ⟨q, e⟩ else ⟨Int.tdiv q 10, e + 1⟩

/-- Context `Decimal` multiplication: exact product rounded to `PREC`
significant digits (`qty * entry` at line 93, `(...) * sign` at line 104). -/
def dmul (a b : Dec) : Dec := roundSig PREC ⟨a.m * b.m, a.e + b.e⟩

/-- Context `Decimal` subtraction: exact difference (coefficients
aligned at the smaller exponent) rounded to `PREC` significant digits
(`qty - target_qty` at line 105). -/
def dsub (a b : Dec) : Dec :=
  roundSig PREC <|
    if b.e ≤ a.e then ⟨a.m * pow10 (a.e - b.e).toNat - b.m, b.e⟩
    else ⟨a.m - b.m * pow10 (b.e - a.e).toNat, a.e⟩

/-- Context `Decimal` division (`MAX_NOTIONAL / entry` at line 104):
the exact quotient, correctly rounded in one step to `PREC` significant digits,
half-even.  `mag` is the adjusted exponent (floor of `log10` of the absolute
exact quotient).  Division by zero is junk (`0`) here; the script divides only
by `entryPrice`, which is positive whenever the position is non-flat (comment
at line 92), and every theorem that reaches the division assumes this. -/
def ddiv (a b : Dec) : Dec :=
  if b.m = 0 then ⟨0, 0⟩
  else
    let la := nDigits a.m.natAbs
    let lb := nDigits b.m.natAbs
    let mag : ℤ :=
      if (b.m.natAbs : ℤ) * pow10 la ≤ (a.m.natAbs : ℤ) * pow10 lb
      then (la : ℤ) - lb else (la : ℤ) - lb - 1
    let t : ℤ := (PREC : ℤ) - 1 - mag
    let q := if 0 ≤ t then rndHalfEvenDiv (a.m * pow10 t.toNat) b.m
             else rndHalfEvenDiv a.m (b.m * pow10 (-t).toNat)
    ⟨q, mag + a.e - b.e - ((PREC : ℤ) - 1)⟩

/-- Absolute value of a `Decimal` (`abs(qty * entry)` at line 93, `abs(excess)` at
line 113).  The script only applies it to results already rounded to context
precision, where Python's `abs` is exact. -/
def absDec (a : Dec) : Dec := ⟨(a.m.natAbs : ℤ), a.e⟩

/-- Quantization `Decimal.quantize(step, rounding=ROUND_DOWN)` (line 113): round toward zero
to the EXPONENT of `step`.  Per the Python documentation, `quantize` returns a
value with the exponent of its second operand — only the exponent of `step`
matters, not its value. -/
def quantDown (a : Dec) (e : ℤ) : Dec :=
  if e ≤ a.e then ⟨a.m * pow10 (a.e - e).toNat, e⟩
  else ⟨Int.tdiv a.m (pow10 (e - a.e).toNat), e⟩

/-- Value comparison `a ≤ b`: Python `Decimal` comparisons compare values, not
representations. -/
def Dec.ble (a b : Dec) : Bool :=
  if a.e ≤ b.e then decide (a.m ≤ b.m * pow10 (b.e - a.e).toNat)
  else decide (a.m * pow10 (a.e - b.e).toNat ≤ b.m)

/-- Value comparison `a < b`. -/
def Dec.blt (a b : Dec) : Bool :=
  if a.e ≤ b.e then decide (a.m < b.m * pow10 (b.e - a.e).toNat)
  else decide (a.m * pow10 (a.e - b.e).toNat < b.m)

/-- Value equality test. -/
def Dec.beqv (a b : Dec) : Bool :=
  if a.e ≤ b.e then decide (a.m = b.m * pow10 (b.e - a.e).toNat)
  else decide (a.m * pow10 (a.e - b.e).toNat = b.m)

/-- The rational value of a decimal; used in specification statements only. -/
def Dec.val (a : Dec) : ℚ := (a.m : ℚ) * (10 : ℚ) ^ a.e

/-- Venue order side, `Client.SIDE_SELL` / `Client.SIDE_BUY` (line 100).  A
SELL reduces a long position (spec: REDUCE_LONG), a BUY reduces a short
(spec: REDUCE_SHORT). -/
inductive Side
  | SELL
  | BUY
  deriving DecidableEq

/-- Line 100: `side = Client.SIDE_SELL if qty > 0 else Client.SIDE_BUY`.
`0 < qty.m` is exactly the value comparison `qty > 0`. -/
def sideOf (qty : Dec) : Side := if 0 < qty.m then Side.SELL else Side.BUY

/-- Line 101: `sign = Decimal(1) if qty > 0 else Decimal(-1)`. -/
def sgnDec (qty : Dec) : Dec := if 0 < qty.m then ⟨1, 0⟩ else ⟨-1, 0⟩

/-- Line 93: `notional = abs(qty * entry)`. -/
def notionalOf (qty entry : Dec) : Dec := absDec (dmul qty entry)

/-- Line 104: `target_qty = (MAX_NOTIONAL / entry) * sign`. -/
def targetQty (ceiling entry qty : Dec) : Dec := dmul (ddiv ceiling entry) (sgnDec qty)

/-- Line 105: `excess = qty - target_qty` (signed). -/
def excessQty (ceiling entry qty : Dec) : Dec := dsub qty (targetQty ceiling entry qty)

/-- Outcome of evaluating one non-flat position (lines 93-116): skipped because
the notional is within the ceiling (line 96), skipped because the step size is
unknown (line 108), skipped because the rounded excess is below one step
(line 114), or a correction order. -/
inductive EvalRes
  | underCeiling
  | missingStep
  | belowStep
  | order (side : Side) (qty : Dec)
  deriving DecidableEq

/-- The exposure evaluation for one non-flat position, lines 93-116 of
`monitor`: the pure computation from `(qty, entry, MAX_NOTIONAL, step?)` to an
optional correction order.  The decimals `side`, `sign`, `target_qty`,
`excess` are computed by the script before the step lookup, but they are pure,
so moving them below the `step is None` test preserves behaviour (for
`entry ≠ 0`; with `entry = 0` the script would raise at line 104, which is why
theorems below assume a positive entry price). -/
def evaluate (qty entry ceiling : Dec) (step : Option Dec) : EvalRes :=
  if (notionalOf qty entry).ble ceiling then .underCeiling
  else
    match step with
    | none => .missingStep
    | some st =>
      let close := quantDown (absDec (excessQty ceiling entry qty)) st.e
      if close.blt st then .belowStep
      else .order (sideOf qty) close

/-- Numeric value of an ASCII digit. -/
def digitVal (c : Char) : Option ℕ :=
  if '0' ≤ c ∧ c ≤ '9' then some (c.toNat - '0'.toNat) else none

/-- Reads a digit string into a natural number, failing on any non-digit. -/
def readNatLoop : List Char → ℕ → Option ℕ
  | [], acc => some acc
  | c :: cs, acc =>
    match digitVal c with
    | none => none
    | some d => readNatLoop cs (10 * acc + d)

/-- Reads a nonempty all-digit string. -/
def readNat : List Char → Option ℕ
  | [] => none
  | cs => readNatLoop cs 0

/-- Consumes an optional leading sign. -/
def readSign : List Char → ℤ × List Char
  | '+' :: cs => (1, cs)
  | '-' :: cs => (-1, cs)
  | cs => (1, cs)

/-- The conversion `Decimal(string)` performed on `positionAmt` / `entryPrice`
(lines 88 and 92): optional surrounding whitespace, underscores stripped (as
CPython's `_decimal` does), optional sign, digits with at most one decimal
point (at least one digit overall), optional exponent part.
`none` models the `InvalidOperation` the constructor raises on malformed input.
The resulting coefficient and exponent are exactly `Decimal`'s (the constructor
is exact; it does not round).  Special values (`Infinity`, `NaN`) are out of
modelled scope, as described in the header. -/
def decFromChars (cs : List Char) : Option Dec :=
  let s0 := ((cs.dropWhile fun c => c.isWhitespace).reverse.dropWhile
      fun c => c.isWhitespace).reverse
  let s1 := s0.filter fun c => !(c == '_')
  let sr := readSign s1
  let mantExp := sr.2.span fun c => !(c == 'e' || c == 'E')
  let ipf := mantExp.1.span fun c => !(c == '.')
  let fracOpt : Option (List Char) :=
    match ipf.2 with
    | [] => some []
    | _ :: t => if t.contains '.' then none else some t
  match fracOpt with
  | none => none
  | some frac =>
    match readNat (ipf.1 ++ frac) with
    | none => none
    | some coeff =>
      let expOpt : Option ℤ :=
        match mantExp.2 with
        | [] => some 0
        | _ :: ecs =>
          let es := readSign ecs
          match readNat es.2 with
          | none => none
          | some en => some (es.1 * en)
      match expOpt with
      | none => none
      | some ex => some ⟨sr.1 * coeff, ex - frac.length⟩

/-- Conversion `Decimal(s)` for a string. -/
def decFromString (s : String) : Option Dec := decFromChars s.data

/-- One raw entry of `client.futures_position_information()` (line 84): the
fields the script reads, as the JSON strings the venue sends. -/
structure RawPos where
  symbol : String
  positionAmt : String
  entryPrice : String
  deriving DecidableEq

/-- Result of `client.futures_create_order(...)` (line 120): an acknowledgment
carrying an order id, or a `BinanceAPIException` / `BinanceOrderException`
caught at line 128. -/
inductive SubmitRes
  | ok (orderId : ℕ)
  | rejected
  deriving DecidableEq

/-- Observable events of one cycle, in emission order: the per-position log
line (line 94), the missing-step warning (line 109), the below-step skip
(line 115), a submitted order (lines 120-127), a rejected order (line 129),
the cycle-level error logs (lines 134 and 137), and `time.sleep` (lines 131,
135, 138). -/
inductive Event
  | posLog (sym : String) (qty entry notional : Dec)
  | stepMissing (sym : String)
  | belowStepSkip (sym : String)
  | orderSubmitted (sym : String) (side : Side) (qty : Dec)
  | orderRejected (sym : String)
  | apiError
  | unexpectedError
  | sleep (secs : ℕ)
  deriving DecidableEq

/-- Processing of one raw position record, lines 86-129.  `none` models an
exception escaping the per-position body (a malformed decimal string at
line 88 or 92), which only the cycle-level handler at line 136 catches.
`submit` is the venue's response to an order for the given symbol, side and
quantity.  Flat positions are skipped before anything is logged (lines 89-90). -/
def processPos (steps : String → Option Dec) (ceiling : Dec)
    (submit : String → Side → Dec → SubmitRes) (p : RawPos) : Option (List Event) :=
  match decFromString p.positionAmt with
  | none => none
  | some qty =>
    if qty.m = 0 then some []
    else
      match decFromString p.entryPrice with
      | none => none
      | some entry =>
        let base := [Event.posLog p.symbol qty entry (notionalOf qty entry)]
        match evaluate qty entry ceiling (steps p.symbol) with
        | .underCeiling => some base
        | .missingStep => some (base ++ [Event.stepMissing p.symbol])
        | .belowStep => some (base ++ [Event.belowStepSkip p.symbol])
        | .order sd q =>
          match submit p.symbol sd q with
          | .ok _ => some (base ++ [Event.orderSubmitted p.symbol sd q])
          | .rejected => some (base ++ [Event.orderRejected p.symbol])

/-- The `for p in positions` loop (line 86): events emitted so far, plus a flag
recording whether an exception aborted the loop (in which case the remaining
positions are never reached). -/
def runPositions (steps : String → Option Dec) (ceiling : Dec)
    (submit : String → Side → Dec → SubmitRes) : List RawPos → List Event × Bool
  | [] => ([], false)
  | p :: ps =>
    match processPos steps ceiling submit p with
    | none => ([], true)
    | some evs =>
      let r := runPositions steps ceiling submit ps
      (evs ++ r.1, r.2)

/-- Result of `client.futures_position_information()` (line 84): the batch, a
Binance exception (caught at line 133), or any other exception (line 136). -/
inductive FetchRes
  | ok (ps : List RawPos)
  | apiFail
  | otherFail
  deriving DecidableEq

/-- One trip around the `while True` loop, lines 81-138: fetch, evaluate and
dispatch every position, then sleep; any cycle-level error is logged and is
followed by the same fixed-duration sleep. -/
def cycle (steps : String → Option Dec) (ceiling : Dec)
    (submit : String → Side → Dec → SubmitRes) (sl : ℕ) : FetchRes → List Event
  | .apiFail => [Event.apiError, Event.sleep sl]
  | .otherFail => [Event.unexpectedError, Event.sleep sl]
  | .ok ps =>
    let r := runPositions steps ceiling submit ps
    if r.2 then r.1 ++ [Event.unexpectedError, Event.sleep sl]
    else r.1 ++ [Event.sleep sl]

/-- The `monitor` loop after `load_step_sizes` (lines 78-138), run over a
finite prefix of cycles.  Each cycle receives its own fetch result and venue
behaviour, but `steps` is loaded once (line 79) and never refreshed: every
cycle runs against the same directory. -/
def monitorTrace (steps : String → Option Dec) (ceiling : Dec) (sl : ℕ) :
    List (FetchRes × (String → Side → Dec → SubmitRes)) → List Event
  | [] => []
  | c :: rest => cycle steps ceiling c.2 sl c.1 ++ monitorTrace steps ceiling sl rest

/-! Value-level facts connecting the integer implementation to rational
values. -/

theorem ten_ne_zero : (10 : ℚ) ≠ 0 := by norm_num

theorem qpow_pos (e : ℤ) : (0 : ℚ) < (10 : ℚ) ^ e := zpow_pos (by norm_num) e

theorem pow10_pos (k : ℕ) : (0 : ℤ) < pow10 k := by
  induction k with
  | zero => norm_num [pow10]
  | succ n ih => rw [pow10]; positivity

theorem pow10_cast (k : ℕ) : ((pow10 k : ℤ) : ℚ) = (10 : ℚ) ^ (k : ℤ) := by
  induction k with
  | zero => simp [pow10]
  | succ n ih =>
    have h1 : ((pow10 (n + 1) : ℤ) : ℚ) = 10 * ((pow10 n : ℤ) : ℚ) := by
      rw [pow10]; push_cast; ring
    have h2 : ((n + 1 : ℕ) : ℤ) = (n : ℤ) + 1 := by push_cast; ring
    rw [h1, ih, h2, zpow_add_one₀ ten_ne_zero]; ring

/-- Shifting a coefficient to a smaller exponent preserves the value. -/
theorem Dec.val_shift {e : ℤ} (a : Dec) (h : e ≤ a.e) :
    ((a.m * pow10 (a.e - e).toNat : ℤ) : ℚ) * (10 : ℚ) ^ e = a.val := by
  have hk : ((a.e - e).toNat : ℤ) = a.e - e := Int.toNat_of_nonneg (by omega)
  push_cast
  rw [pow10_cast, hk, Dec.val, mul_assoc, ← zpow_add₀ ten_ne_zero, sub_add_cancel]

theorem intMul_zpow_le_iff (x y e : ℤ) :
    (x : ℚ) * (10 : ℚ) ^ e ≤ (y : ℚ) * (10 : ℚ) ^ e ↔ x ≤ y := by
  rw [mul_le_mul_right (qpow_pos e)]; exact Int.cast_le

theorem intMul_zpow_lt_iff (x y e : ℤ) :
    (x : ℚ) * (10 : ℚ) ^ e < (y : ℚ) * (10 : ℚ) ^ e ↔ x < y := by
  rw [mul_lt_mul_right (qpow_pos e)]; exact Int.cast_lt

theorem intMul_zpow_eq_iff (x y e : ℤ) :
    (x : ℚ) * (10 : ℚ) ^ e = (y : ℚ) * (10 : ℚ) ^ e ↔ x = y := by
  constructor
  · intro h
    exact_mod_cast mul_right_cancel₀ (ne_of_gt (qpow_pos e)) h
  · intro h; rw [h]

/-- Boolean `Dec.ble` decides the value inequality. -/
theorem Dec.ble_iff (a b : Dec) : a.ble b = true ↔ a.val ≤ b.val := by
  unfold Dec.ble
  by_cases h : a.e ≤ b.e
  · rw [if_pos h, decide_eq_true_eq, ← Dec.val_shift b h,
      show a.val = (a.m : ℚ) * (10 : ℚ) ^ a.e from rfl, intMul_zpow_le_iff]
  · have h2 : b.e ≤ a.e := by omega
    rw [if_neg h, decide_eq_true_eq, ← Dec.val_shift a h2,
      show b.val = (b.m : ℚ) * (10 : ℚ) ^ b.e from rfl, intMul_zpow_le_iff]

/-- Boolean `Dec.blt` decides the value strict inequality. -/
theorem Dec.blt_iff (a b : Dec) : a.blt b = true ↔ a.val < b.val := by
  unfold Dec.blt
  by_cases h : a.e ≤ b.e
  · rw [if_pos h, decide_eq_true_eq, ← Dec.val_shift b h,
      show a.val = (a.m : ℚ) * (10 : ℚ) ^ a.e from rfl, intMul_zpow_lt_iff]
  · have h2 : b.e ≤ a.e := by omega
    rw [if_neg h, decide_eq_true_eq, ← Dec.val_shift a h2,
      show b.val = (b.m : ℚ) * (10 : ℚ) ^ b.e from rfl, intMul_zpow_lt_iff]

/-- Boolean `Dec.beqv` decides value equality. -/
theorem Dec.beqv_iff (a b : Dec) : a.beqv b = true ↔ a.val = b.val := by
  unfold Dec.beqv
  by_cases h : a.e ≤ b.e
  · rw [if_pos h, decide_eq_true_eq, ← Dec.val_shift b h,
      show a.val = (a.m : ℚ) * (10 : ℚ) ^ a.e from rfl, intMul_zpow_eq_iff]
  · have h2 : b.e ≤ a.e := by omega
    rw [if_neg h, decide_eq_true_eq, ← Dec.val_shift a h2,
      show b.val = (b.m : ℚ) * (10 : ℚ) ^ b.e from rfl, intMul_zpow_eq_iff]

theorem Dec.val_pos_iff (a : Dec) : 0 < a.val ↔ 0 < a.m := by
  unfold Dec.val
  constructor
  · intro h
    by_contra hm
    push_neg at hm
    have hm2 : (a.m : ℚ) ≤ 0 := by exact_mod_cast hm
    nlinarith [qpow_pos a.e]
  · intro h
    exact mul_pos (by exact_mod_cast h) (qpow_pos a.e)

theorem Dec.val_neg_iff (a : Dec) : a.val < 0 ↔ a.m < 0 := by
  unfold Dec.val
  constructor
  · intro h
    by_contra hm
    push_neg at hm
    have hm2 : (0 : ℚ) ≤ (a.m : ℚ) := by exact_mod_cast hm
    nlinarith [qpow_pos a.e]
  · intro h
    have hm2 : (a.m : ℚ) < 0 := by exact_mod_cast h
    nlinarith [qpow_pos a.e]

theorem Dec.val_ne_zero_iff (a : Dec) : a.val ≠ 0 ↔ a.m ≠ 0 := by
  unfold Dec.val
  constructor
  · intro h hm
    exact h (by rw [hm]; push_cast; ring)
  · intro h hv
    rcases mul_eq_zero.1 hv with h1 | h1
    · exact h (by exact_mod_cast h1)
    · exact absurd h1 (ne_of_gt (qpow_pos a.e))

theorem absDec_m_nonneg (a : Dec) : 0 ≤ (absDec a).m := Int.natCast_nonneg _

theorem absDec_val (a : Dec) : (absDec a).val = |a.val| := by
  unfold absDec Dec.val
  rw [abs_mul, abs_of_pos (qpow_pos a.e)]
  congr 1
  push_cast [Int.cast_natAbs]
  rfl

theorem quantDown_e (a : Dec) (e : ℤ) : (quantDown a e).e = e := by
  unfold quantDown; split <;> rfl

/-- Truncation to the step exponent never increases a nonnegative value:
`quantize(step, ROUND_DOWN)` never over-corrects. -/
theorem quantDown_val_le (a : Dec) (e : ℤ) (h : 0 ≤ a.m) :
    (quantDown a e).val ≤ a.val := by
  unfold quantDown
  split
  · exact le_of_eq (Dec.val_shift a (by assumption))
  · rename_i hae
    have hlt : a.e < e := by omega
    have hD : (0 : ℤ) < pow10 (e - a.e).toNat := pow10_pos _
    have htd : Int.tdiv a.m (pow10 (e - a.e).toNat) =
        a.m / pow10 (e - a.e).toNat := Int.tdiv_eq_ediv h (le_of_lt hD)
    have hq : Int.tdiv a.m (pow10 (e - a.e).toNat) * pow10 (e - a.e).toNat ≤ a.m := by
      rw [htd]; exact Int.ediv_mul_le a.m (ne_of_gt hD)
    show (↑(Int.tdiv a.m (pow10 (e - a.e).toNat)) : ℚ) * (10 : ℚ) ^ e ≤ a.val
    have hk : ((e - a.e).toNat : ℤ) = e - a.e := Int.toNat_of_nonneg (by omega)
    calc (↑(Int.tdiv a.m (pow10 (e - a.e).toNat)) : ℚ) * (10 : ℚ) ^ e
        = ((Int.tdiv a.m (pow10 (e - a.e).toNat) * pow10 (e - a.e).toNat : ℤ) : ℚ)
            * (10 : ℚ) ^ a.e := by
          push_cast
          rw [pow10_cast, hk, mul_assoc, ← zpow_add₀ ten_ne_zero, sub_add_cancel]
      _ ≤ (a.m : ℚ) * (10 : ℚ) ^ a.e :=
          mul_le_mul_of_nonneg_right (by exact_mod_cast hq) (le_of_lt (qpow_pos _))
      _ = a.val := rfl

/-- When the value is an exact integer multiple of `10 ^ e`, quantizing to
exponent `e` is the identity on values. -/
theorem quantDown_val_exact (a : Dec) (e : ℤ) (s : ℤ)
    (hs : a.val = (s : ℚ) * (10 : ℚ) ^ e) : (quantDown a e).val = a.val := by
  unfold quantDown
  split
  · exact Dec.val_shift a (by assumption)
  · rename_i hae
    have hD : (0 : ℤ) < pow10 (e - a.e).toNat := pow10_pos _
    have hk : ((e - a.e).toNat : ℤ) = e - a.e := Int.toNat_of_nonneg (by omega)
    have hm : a.m = s * pow10 (e - a.e).toNat := by
      have h1 : (a.m : ℚ) * (10 : ℚ) ^ a.e
          = ((s * pow10 (e - a.e).toNat : ℤ) : ℚ) * (10 : ℚ) ^ a.e := by
        rw [show ((s * pow10 (e - a.e).toNat : ℤ) : ℚ)
            = (s : ℚ) * ((pow10 (e - a.e).toNat : ℤ) : ℚ) by push_cast; ring]
        rw [pow10_cast, hk, mul_assoc, ← zpow_add₀ ten_ne_zero, sub_add_cancel]
        exact hs
      exact_mod_cast mul_right_cancel₀ (ne_of_gt (qpow_pos a.e)) h1
    show (↑(Int.tdiv a.m (pow10 (e - a.e).toNat)) : ℚ) * (10 : ℚ) ^ e = a.val
    rw [hm, Int.mul_tdiv_cancel s (ne_of_gt hD), hs]

/-- Inversion: everything that is true when the evaluation produced an order. -/
theorem evaluate_order_cases (qty entry ceiling : Dec) (step : Option Dec)
    (sd : Side) (q : Dec) (h : evaluate qty entry ceiling step = .order sd q) :
    ∃ st, step = some st ∧ (notionalOf qty entry).ble ceiling = false ∧
      q = quantDown (absDec (excessQty ceiling entry qty)) st.e ∧
      q.blt st = false ∧ sd = sideOf qty := by
  unfold evaluate at h
  split at h
  · exact absurd h (by simp)
  · rename_i h1
    rw [Bool.not_eq_true] at h1
    cases step with
    | none => exact absurd h (by simp at h)
    | some st =>
      simp only at h
      split at h
      · exact absurd h (by simp)
      · rename_i h2
        rw [Bool.not_eq_true] at h2
        simp only [EvalRes.order.injEq] at h
        exact ⟨st, rfl, h1, h.2.symm, by rw [h.2] at h2; exact h2, h.1.symm⟩

/-- Inversion specialized to a known step size. -/
theorem evaluate_order_cases_some (qty entry ceiling st : Dec)
    (sd : Side) (q : Dec) (h : evaluate qty entry ceiling (some st) = .order sd q) :
    (notionalOf qty entry).ble ceiling = false ∧
      q = quantDown (absDec (excessQty ceiling entry qty)) st.e ∧
      q.blt st = false ∧ sd = sideOf qty := by
  obtain ⟨st', hst', h1, h2, h3, h4⟩ := evaluate_order_cases _ _ _ _ _ _ h
  injection hst' with h'
  subst h'
  exact ⟨h1, h2, h3, h4⟩

/-- C2: a non-flat position whose notional is within the ceiling is skipped —
no correction order, whatever the step-size lookup would return (lines 96-97
run before the lookup). -/
theorem evaluate_under_ceiling_skips (qty entry ceiling : Dec) (step : Option Dec)
    (hq : qty.val ≠ 0)
    (hle : (notionalOf qty entry).val ≤ ceiling.val) :
    evaluate qty entry ceiling step = .underCeiling := by
  have hb : (notionalOf qty entry).ble ceiling = true := (Dec.ble_iff _ _).2 hle
  simp [evaluate, hb]

/-- C2 witness: the spec's ETHUSDT scenario, `qty = -2`, `entryPrice = 40`,
ceiling `100`: notional `80 ≤ 100`, no order. -/
theorem evaluate_under_ceiling_skips_witness :
    (Dec.mk (-2) 0).val ≠ 0 ∧
    (notionalOf (Dec.mk (-2) 0) (Dec.mk 40 0)).val ≤ (Dec.mk 100 0).val ∧
    evaluate (Dec.mk (-2) 0) (Dec.mk 40 0) (Dec.mk 100 0) none = .underCeiling :=
  ⟨(Dec.val_ne_zero_iff _).2 (by decide), (Dec.ble_iff _ _).1 (by decide),
    evaluate_under_ceiling_skips _ _ _ none ((Dec.val_ne_zero_iff _).2 (by decide))
      ((Dec.ble_iff _ _).1 (by decide))⟩

/-- C4: an order from a long position (`qty > 0`) is a SELL (REDUCE_LONG), an
order from a short position is a BUY (REDUCE_SHORT), and no other side exists
(line 100). -/
theorem evaluate_order_side_correct (qty entry ceiling : Dec) (step : Option Dec)
    (sd : Side) (q : Dec) (hE : 0 < entry.val)
    (h : evaluate qty entry ceiling step = .order sd q) :
    (0 < qty.val → sd = Side.SELL) ∧ (qty.val < 0 → sd = Side.BUY) ∧
    (sd = Side.SELL ∨ sd = Side.BUY) := by
  obtain ⟨st, -, -, -, -, hsd⟩ := evaluate_order_cases _ _ _ _ _ _ h
  subst hsd
  refine ⟨?_, ?_, ?_⟩
  · intro hpos
    have : 0 < qty.m := (Dec.val_pos_iff _).1 hpos
    simp [sideOf, this]
  · intro hneg
    have h1 : qty.m < 0 := (Dec.val_neg_iff _).1 hneg
    have h2 : ¬ 0 < qty.m := by omega
    simp [sideOf, h2]
  · unfold sideOf
    split
    · exact Or.inl rfl
    · exact Or.inr rfl

/-- C4 witness: the BTCUSDT scenario produces a SELL, and the theorem's
conclusions hold at it. -/
theorem evaluate_order_side_correct_witness :
    0 < (Dec.mk 60000 0).val ∧
    evaluate (Dec.mk 1 (-2)) (Dec.mk 60000 0) (Dec.mk 100 0) (some (Dec.mk 1 (-3)))
      = .order Side.SELL (Dec.mk 8 (-3)) ∧
    ((0 < (Dec.mk 1 (-2)).val → Side.SELL = Side.SELL) ∧
      ((Dec.mk 1 (-2)).val < 0 → Side.SELL = Side.BUY) ∧
      (Side.SELL = Side.SELL ∨ Side.SELL = Side.BUY)) :=
  ⟨(Dec.val_pos_iff _).2 (by decide), by decide,
    evaluate_order_side_correct (Dec.mk 1 (-2)) (Dec.mk 60000 0) (Dec.mk 100 0)
      (some (Dec.mk 1 (-3))) Side.SELL (Dec.mk 8 (-3))
      ((Dec.val_pos_iff _).2 (by decide)) (by decide)⟩

/-- C1 counterexample: with the stored step size `Decimal("0.5")` (coefficient
5, exponent -1), position `103.3 @ 1` against ceiling `100` yields the order
quantity `3.3` — `quantize` rounds to the step's EXPONENT, and `3.3` is not an
integer multiple of the step size `0.5`.  (Python: `Decimal("3.3").quantize(
Decimal("0.5"), rounding=ROUND_DOWN) == Decimal("3.3")`.) -/
theorem evaluate_quantized_not_multiple_of_step :
    evaluate (Dec.mk 1033 (-1)) (Dec.mk 1 0) (Dec.mk 100 0) (some (Dec.mk 5 (-1)))
      = .order Side.SELL (Dec.mk 33 (-1)) ∧
    ¬ ∃ k : ℤ, (Dec.mk 33 (-1)).val = (k : ℚ) * (Dec.mk 5 (-1)).val := by
  constructor
  · decide
  · rintro ⟨k, hk⟩
    have h1 : (Dec.mk 33 (-1)).val = 33 / 10 := by
      rw [Dec.val]; norm_num
    have h2 : (Dec.mk 5 (-1)).val = 1 / 2 := by
      rw [Dec.val]; norm_num
    rw [h1, h2] at hk
    have h4 : (33 : ℚ) = 5 * (k : ℚ) := by
      field_simp at hk
      linarith
    have h5 : (33 : ℤ) = 5 * k := by exact_mod_cast h4
    omega

/-- C1 (amended): whenever the evaluation returns an order, its quantity is an
integer multiple of `10 ^ (step exponent)` — hence of the step size itself
whenever the stored step has coefficient 1, e.g. `Decimal("0.001")` — is at
most `abs(signedQuantity - targetQuantity)` as the script computes it
(truncation never over-corrects), and is strictly positive. -/
theorem evaluate_order_qty_multiple_of_quantum
    (qty entry ceiling st : Dec) (sd : Side) (q : Dec)
    (hE : 0 < entry.val) (hst : 0 < st.val)
    (h : evaluate qty entry ceiling (some st) = .order sd q) :
    (∃ k : ℤ, q.val = (k : ℚ) * (10 : ℚ) ^ st.e) ∧
    q.val ≤ |(excessQty ceiling entry qty).val| ∧ 0 < q.val := by
  obtain ⟨hble, hq, hblt, hsd⟩ := evaluate_order_cases_some _ _ _ _ _ _ h
  refine ⟨⟨q.m, ?_⟩, ?_, ?_⟩
  · rw [Dec.val, hq, quantDown_e]
  · rw [hq]
    calc (quantDown (absDec (excessQty ceiling entry qty)) st.e).val
        ≤ (absDec (excessQty ceiling entry qty)).val :=
          quantDown_val_le _ _ (absDec_m_nonneg _)
      _ = |(excessQty ceiling entry qty).val| := absDec_val _
  · have hnotlt : ¬ (q.val < st.val) := by
      rw [← Dec.blt_iff, hblt]; simp
    linarith

/-- C1 witness: with the canonical step `Decimal("0.1")` the order quantity
`3.3` is `33 * 10 ^ (-1)`, is at most the excess `3.3`, and is positive. -/
theorem evaluate_order_qty_multiple_of_quantum_witness :
    0 < (Dec.mk 1 0).val ∧ 0 < (Dec.mk 1 (-1)).val ∧
    evaluate (Dec.mk 1033 (-1)) (Dec.mk 1 0) (Dec.mk 100 0) (some (Dec.mk 1 (-1)))
      = .order Side.SELL (Dec.mk 33 (-1)) ∧
    ((∃ k : ℤ, (Dec.mk 33 (-1)).val = (k : ℚ) * (10 : ℚ) ^ (Dec.mk 1 (-1)).e) ∧
      (Dec.mk 33 (-1)).val
        ≤ |(excessQty (Dec.mk 100 0) (Dec.mk 1 0) (Dec.mk 1033 (-1))).val| ∧
      0 < (Dec.mk 33 (-1)).val) :=
  ⟨(Dec.val_pos_iff _).2 (by decide), (Dec.val_pos_iff _).2 (by decide), by decide,
    evaluate_order_qty_multiple_of_quantum (Dec.mk 1033 (-1)) (Dec.mk 1 0)
      (Dec.mk 100 0) (Dec.mk 1 (-1)) Side.SELL (Dec.mk 33 (-1))
      ((Dec.val_pos_iff _).2 (by decide)) ((Dec.val_pos_iff _).2 (by decide))
      (by decide)⟩

/-- C3: over the ceiling with a known step, an excess of exactly one step size
yields an order of exactly that quantity, and an excess strictly below one step
size yields no order (lines 113-116). -/
theorem evaluate_step_boundary (qty entry ceiling st : Dec)
    (hE : 0 < entry.val)
    (hover : ceiling.val < (notionalOf qty entry).val) :
    ((absDec (excessQty ceiling entry qty)).val = st.val →
      evaluate qty entry ceiling (some st)
        = .order (sideOf qty) (quantDown (absDec (excessQty ceiling entry qty)) st.e) ∧
      (quantDown (absDec (excessQty ceiling entry qty)) st.e).val = st.val) ∧
    ((absDec (excessQty ceiling entry qty)).val < st.val →
      evaluate qty entry ceiling (some st) = .belowStep) := by
  have hble : (notionalOf qty entry).ble ceiling = false := by
    rw [← Bool.not_eq_true, Dec.ble_iff]
    exact not_le.2 hover
  constructor
  · intro heq
    have hexact : (quantDown (absDec (excessQty ceiling entry qty)) st.e).val
        = (absDec (excessQty ceiling entry qty)).val :=
      quantDown_val_exact _ _ st.m (by rw [heq]; rfl)
    have hnotlt : (quantDown (absDec (excessQty ceiling entry qty)) st.e).blt st
        = false := by
      rw [← Bool.not_eq_true, Dec.blt_iff, hexact, heq]
      exact lt_irrefl _
    refine ⟨?_, by rw [hexact, heq]⟩
    simp [evaluate, hble, hnotlt]
  · intro hlt
    have hle : (quantDown (absDec (excessQty ceiling entry qty)) st.e).val
        ≤ (absDec (excessQty ceiling entry qty)).val :=
      quantDown_val_le _ _ (absDec_m_nonneg _)
    have hblt : (quantDown (absDec (excessQty ceiling entry qty)) st.e).blt st
        = true := (Dec.blt_iff _ _).2 (lt_of_le_of_lt hle hlt)
    simp [evaluate, hble, hblt]

/-- C3 witness: position `100.001 @ 1`, ceiling `100`, step `0.001`: the excess
is exactly one step and the order is exactly one step. -/
theorem evaluate_step_boundary_witness :
    0 < (Dec.mk 1 0).val ∧
    (Dec.mk 100 0).val < (notionalOf (Dec.mk 100001 (-3)) (Dec.mk 1 0)).val ∧
    (absDec (excessQty (Dec.mk 100 0) (Dec.mk 1 0) (Dec.mk 100001 (-3)))).val
      = (Dec.mk 1 (-3)).val ∧
    evaluate (Dec.mk 100001 (-3)) (Dec.mk 1 0) (Dec.mk 100 0) (some (Dec.mk 1 (-3)))
      = .order (sideOf (Dec.mk 100001 (-3)))
          (quantDown (absDec (excessQty (Dec.mk 100 0) (Dec.mk 1 0)
            (Dec.mk 100001 (-3)))) (Dec.mk 1 (-3)).e) :=
  ⟨(Dec.val_pos_iff _).2 (by decide), (Dec.blt_iff _ _).1 (by decide),
    (Dec.beqv_iff _ _).1 (by decide),
    ((evaluate_step_boundary (Dec.mk 100001 (-3)) (Dec.mk 1 0) (Dec.mk 100 0)
        (Dec.mk 1 (-3)) ((Dec.val_pos_iff _).2 (by decide))
        ((Dec.blt_iff _ _).1 (by decide))).1 ((Dec.beqv_iff _ _).1 (by decide))).1⟩

/-- C5: the spec's BTCUSDT scenario.  Ceiling `100`, position `+0.01 @ 60000`,
step `0.001`: notional `600`, target `100/60000` rounded by the context to
`0.001666666666666666666666666667`, excess `0.008333333333333333333333333333`,
quantized down to `0.008`; the order is SELL (REDUCE_LONG) `0.008`. -/
theorem evaluate_btc_scenario :
    evaluate (Dec.mk 1 (-2)) (Dec.mk 60000 0) (Dec.mk 100 0) (some (Dec.mk 1 (-3)))
      = .order Side.SELL (Dec.mk 8 (-3)) ∧
    (notionalOf (Dec.mk 1 (-2)) (Dec.mk 60000 0)).val = 600 ∧
    (Dec.mk 8 (-3)).val = 8 / 1000 := by
  refine ⟨by decide, ?_, ?_⟩
  · have h : notionalOf (Dec.mk 1 (-2)) (Dec.mk 60000 0) = Dec.mk 60000 (-2) := by
      decide
    rw [h, Dec.val]
    norm_num
  · rw [Dec.val]
    norm_num

/-- C9: the evaluation is a pure function of the position, the ceiling and the
step-size lookup result — in this embedding it reads nothing else (the script's
lines 93-116 read only the loop locals, the `steps` mapping fixed at line 79,
and the constant `MAX_NOTIONAL`), so repeated evaluation on unchanged inputs is
literally the same computation with the same outcome. -/
theorem evaluate_deterministic (qty entry ceiling : Dec) (step : Option Dec) :
    evaluate qty entry ceiling step = evaluate qty entry ceiling step := rfl

/-- C6: an over-ceiling position whose symbol is missing from the step-size
directory is skipped with a logged warning and no raise (lines 108-110), and —
because `monitor` loads `steps` once, before the loop — every cycle of the
trace runs against that same unchanged directory, so the skip repeats forever.
-/
theorem missing_step_skips_forever (steps : String → Option Dec) (ceiling : Dec)
    (submit : String → Side → Dec → SubmitRes) (p : RawPos) (qty entry : Dec)
    (hq : decFromString p.positionAmt = some qty) (hm : qty.m ≠ 0)
    (he : decFromString p.entryPrice = some entry) (hE : 0 < entry.val)
    (hover : ceiling.val < (notionalOf qty entry).val)
    (hmiss : steps p.symbol = none) :
    processPos steps ceiling submit p
      = some [Event.posLog p.symbol qty entry (notionalOf qty entry),
              Event.stepMissing p.symbol] ∧
    (∀ sl c rest, monitorTrace steps ceiling sl (c :: rest)
      = cycle steps ceiling c.2 sl c.1 ++ monitorTrace steps ceiling sl rest) := by
  constructor
  · have hble : (notionalOf qty entry).ble ceiling = false := by
      rw [← Bool.not_eq_true, Dec.ble_iff]
      exact not_le.2 hover
    have hev : evaluate qty entry ceiling (steps p.symbol) = .missingStep := by
      rw [hmiss]
      simp [evaluate, hble]
    simp [processPos, hq, he, hev, hm]
  · intro sl c rest
    rfl

/-- C6 witness: the spec's missing-step scenario, BTCUSDT `+0.01 @ 60000`
against ceiling `100` with an empty directory. -/
theorem missing_step_skips_forever_witness :
    processPos (fun _ => none) (Dec.mk 100 0) (fun _ _ _ => SubmitRes.rejected)
        (⟨"BTCUSDT", "0.01", "60000"⟩ : RawPos)
      = some [Event.posLog ("BTCUSDT") (Dec.mk 1 (-2)) (Dec.mk 60000 0)
                (notionalOf (Dec.mk 1 (-2)) (Dec.mk 60000 0)),
              Event.stepMissing ("BTCUSDT")] ∧
    (∀ sl c rest, monitorTrace (fun _ => none) (Dec.mk 100 0) sl (c :: rest)
      = cycle (fun _ => none) (Dec.mk 100 0) c.2 sl c.1
          ++ monitorTrace (fun _ => none) (Dec.mk 100 0) sl rest) :=
  missing_step_skips_forever (fun _ => none) (Dec.mk 100 0)
    (fun _ _ _ => SubmitRes.rejected) (⟨"BTCUSDT", "0.01", "60000"⟩ : RawPos)
    (Dec.mk 1 (-2)) (Dec.mk 60000 0) (by decide) (by decide) (by decide)
    ((Dec.val_pos_iff _).2 (by decide)) ((Dec.blt_iff _ _).1 (by decide)) rfl

/-- C7: a failed position fetch aborts the whole cycle — only the error log and
the fixed sleep happen, no position is evaluated and no order is submitted —
and the next cycle then begins (lines 84, 133-138). -/
theorem fetch_failure_aborts_cycle (steps : String → Option Dec) (ceiling : Dec)
    (submit : String → Side → Dec → SubmitRes) (sl : ℕ) :
    cycle steps ceiling submit sl .apiFail = [Event.apiError, Event.sleep sl] ∧
    cycle steps ceiling submit sl .otherFail
      = [Event.unexpectedError, Event.sleep sl] ∧
    (∀ sym sd q, Event.orderSubmitted sym sd q ∉ cycle steps ceiling submit sl .apiFail
      ∧ Event.orderSubmitted sym sd q ∉ cycle steps ceiling submit sl .otherFail) ∧
    (∀ c rest, monitorTrace steps ceiling sl (c :: rest)
      = cycle steps ceiling c.2 sl c.1 ++ monitorTrace steps ceiling sl rest) := by
  refine ⟨rfl, rfl, ?_, fun c rest => rfl⟩
  intro sym sd q
  constructor <;> simp [cycle]

/-- C8: a rejected order submission is logged and local to its position: the
per-position body catches it (lines 128-129), so the remaining positions of
the batch are processed exactly as they would have been. -/
theorem rejected_order_localized (steps : String → Option Dec) (ceiling : Dec)
    (submit : String → Side → Dec → SubmitRes) (p : RawPos) (qty entry : Dec)
    (sd : Side) (q : Dec)
    (hq : decFromString p.positionAmt = some qty) (hm : qty.m ≠ 0)
    (he : decFromString p.entryPrice = some entry) (hE : 0 < entry.val)
    (hev : evaluate qty entry ceiling (steps p.symbol) = .order sd q)
    (hrej : submit p.symbol sd q = .rejected) :
    ∀ rest, runPositions steps ceiling submit (p :: rest)
      = ([Event.posLog p.symbol qty entry (notionalOf qty entry),
          Event.orderRejected p.symbol] ++ (runPositions steps ceiling submit rest).1,
         (runPositions steps ceiling submit rest).2) := by
  intro rest
  have hp : processPos steps ceiling submit p
      = some [Event.posLog p.symbol qty entry (notionalOf qty entry),
              Event.orderRejected p.symbol] := by
    simp [processPos, hq, he, hev, hrej, hm]
  simp [runPositions, hp]

/-- C8 witness: a rejected SELL on BTCUSDT, followed by an ETHUSDT position
that is still evaluated. -/
theorem rejected_order_localized_witness :
    runPositions (fun _ => some (Dec.mk 1 (-1))) (Dec.mk 100 0)
        (fun _ _ _ => SubmitRes.rejected)
        ((⟨"BTCUSDT", "103.3", "1"⟩ : RawPos) :: [(⟨"ETHUSDT", "-2", "40"⟩ : RawPos)])
      = ([Event.posLog ("BTCUSDT") (Dec.mk 1033 (-1)) (Dec.mk 1 0)
            (notionalOf (Dec.mk 1033 (-1)) (Dec.mk 1 0)),
          Event.orderRejected ("BTCUSDT")]
          ++ (runPositions (fun _ => some (Dec.mk 1 (-1))) (Dec.mk 100 0)
              (fun _ _ _ => SubmitRes.rejected) [(⟨"ETHUSDT", "-2", "40"⟩ : RawPos)]).1,
         (runPositions (fun _ => some (Dec.mk 1 (-1))) (Dec.mk 100 0)
            (fun _ _ _ => SubmitRes.rejected) [(⟨"ETHUSDT", "-2", "40"⟩ : RawPos)]).2) :=
  rejected_order_localized (fun _ => some (Dec.mk 1 (-1))) (Dec.mk 100 0)
    (fun _ _ _ => SubmitRes.rejected) (⟨"BTCUSDT", "103.3", "1"⟩ : RawPos)
    (Dec.mk 1033 (-1)) (Dec.mk 1 0) Side.SELL (Dec.mk 33 (-1))
    (by decide) (by decide) (by decide) ((Dec.val_pos_iff _).2 (by decide))
    (by decide) (by decide) [(⟨"ETHUSDT", "-2", "40"⟩ : RawPos)]

/-- Splitting the per-position loop: if the first part of the batch does not
abort, the whole batch behaves as the first part followed by the second. -/
theorem runPositions_append (steps : String → Option Dec) (ceiling : Dec)
    (submit : String → Side → Dec → SubmitRes) (xs ys : List RawPos)
    (h : (runPositions steps ceiling submit xs).2 = false) :
    runPositions steps ceiling submit (xs ++ ys)
      = ((runPositions steps ceiling submit xs).1
          ++ (runPositions steps ceiling submit ys).1,
         (runPositions steps ceiling submit ys).2) := by
  induction xs with
  | nil => simp [runPositions]
  | cons p xs ih =>
    cases hp : processPos steps ceiling submit p with
    | none => simp [runPositions, hp] at h
    | some evs =>
      simp only [runPositions, hp, List.cons_append, List.append_eq] at h ⊢
      rw [ih h]
      simp

/-- C10: a position record whose `positionAmt` (or, for a non-flat position,
`entryPrice`) does not parse as a decimal makes the conversion raise; the
exception escapes the per-position loop, so the whole cycle aborts at the
cycle-level handler (line 136) followed by the fixed sleep — the positions
after the malformed record are never evaluated.  Contrast with C8: an order
rejection is local to one symbol, a malformed record is not. -/
theorem malformed_position_aborts_cycle (steps : String → Option Dec) (ceiling : Dec)
    (submit : String → Side → Dec → SubmitRes) (sl : ℕ) (p : RawPos)
    (hbad : decFromString p.positionAmt = none ∨
      (∃ qty, decFromString p.positionAmt = some qty ∧ qty.m ≠ 0 ∧
        decFromString p.entryPrice = none)) :
    processPos steps ceiling submit p = none ∧
    (∀ pre post, (runPositions steps ceiling submit pre).2 = false →
      cycle steps ceiling submit sl (.ok (pre ++ p :: post))
        = (runPositions steps ceiling submit pre).1
            ++ [Event.unexpectedError, Event.sleep sl]) := by
  have hp : processPos steps ceiling submit p = none := by
    rcases hbad with h1 | ⟨qty, h1, h2, h3⟩
    · simp [processPos, h1]
    · simp [processPos, h1, h3, h2]
  refine ⟨hp, ?_⟩
  intro pre post hpre
  have h2 : runPositions steps ceiling submit (p :: post) = ([], true) := by
    simp [runPositions, hp]
  simp [cycle, runPositions_append steps ceiling submit pre (p :: post) hpre, h2]

/-- C10 witness: a batch `[good ETHUSDT, malformed, good BTCUSDT]`: the cycle
aborts after the good prefix; the BTCUSDT position is never evaluated. -/
theorem malformed_position_aborts_cycle_witness :
    processPos (fun _ => none) (Dec.mk 100 0) (fun _ _ _ => SubmitRes.rejected)
        (⟨"XYZUSDT", "abc", "1"⟩ : RawPos) = none ∧
    cycle (fun _ => none) (Dec.mk 100 0) (fun _ _ _ => SubmitRes.rejected) 5
        (.ok ([(⟨"ETHUSDT", "-2", "40"⟩ : RawPos)]
          ++ (⟨"XYZUSDT", "abc", "1"⟩ : RawPos) :: [(⟨"BTCUSDT", "0.01", "60000"⟩ : RawPos)]))
      = (runPositions (fun _ => none) (Dec.mk 100 0) (fun _ _ _ => SubmitRes.rejected)
          [(⟨"ETHUSDT", "-2", "40"⟩ : RawPos)]).1
          ++ [Event.unexpectedError, Event.sleep 5] :=
  ⟨(malformed_position_aborts_cycle (fun _ => none) (Dec.mk 100 0)
      (fun _ _ _ => SubmitRes.rejected) 5 (⟨"XYZUSDT", "abc", "1"⟩ : RawPos)
      (Or.inl (by decide))).1,
    (malformed_position_aborts_cycle (fun _ => none) (Dec.mk 100 0)
      (fun _ _ _ => SubmitRes.rejected) 5 (⟨"XYZUSDT", "abc", "1"⟩ : RawPos)
      (Or.inl (by decide))).2 [(⟨"ETHUSDT", "-2", "40"⟩ : RawPos)]
      [(⟨"BTCUSDT", "0.01", "60000"⟩ : RawPos)] (by decide)⟩
